import Mathlib

/-!
Verification of the temporal branched graph engine of the infrahub
repository: a shallow embedding of the edge data model
(`(branch, status, from, to)` temporal headers), of the attribute
queries of `src/infrahub/core/query/attribute.py`, of the diff REST
endpoint of `src/backend/infrahub/api/diff.py`, of the migration
selection of `src/backend/infrahub/core/graph/migrations/__init__.py`,
and of the branch-name validation of branch creation.

Timestamps are modelled as `Nat` (the code compares ISO-8601 strings of
UTC instants, a total order); graph-database node identities and branch
names are `String`s.
-/

namespace Infrahub

/-- An edge of the property graph.  Every edge of the store carries the
temporal header `(branch, status, from, to)`; `label` is the edge label
(`HAS_VALUE`, `HAS_ATTRIBUTE`, `IS_PROTECTED`, ...), `src` and `tgt`
the identities of the endpoints.  The edge property `from` of the
source is written `«from»` because `from` is a Lean keyword. -/
structure Edge where
  label : String
  src : String
  tgt : String
  branch : String
  status : String
  «from» : Nat
  «to» : Option Nat
deriving DecidableEq

/-- Spec 4.1: edge `e` is visible at `(q_branch, q_time)` iff
`e.branch ∈ lineage(q_branch)`, `e.from ≤ q_time`, and `e.«to»` is null
or `e.«to» > q_time`.  `lin` is `lineage(q_branch)`. -/
def visible_at (e : Edge) (lin : List String) (q_time : Nat) : Prop :=
  e.branch ∈ lin ∧ e.«from» ≤ q_time ∧
    (e.«to» = none ∨ ∃ x, e.«to» = some x ∧ q_time < x)

instance (e : Edge) (lin : List String) (q_time : Nat) :
    Decidable (visible_at e lin q_time) := by
  unfold visible_at
  cases h : e.«to» <;> exact inferInstance

/-- Modelled from the spec: `Branch.get_query_filter_relationships`
(class `Branch`, not under src/) builds, for each matched edge, the
disjunction over all branches `b` of `lineage(q_branch)` of
`e.branch = b ∧ e.from ≤ q_time ∧ (e.«to» = null ∨ e.«to» > q_time)`. -/
def get_query_filter_relationships (lin : List String) (q_time : Nat)
    (e : Edge) : Bool :=
  lin.any fun b =>
    e.branch == b && decide (e.«from» ≤ q_time) &&
      (match e.«to» with
       | none => true
       | some x => decide (q_time < x))

/-- `AttributeGetValueQuery.query_init`: match the edges
`(a)-[r:HAS_VALUE]-(av)` adjacent to the attribute `$attr_id` that
pass the branch/time filter, and return them (`get_value` reads
`av.value` off the matched record, i.e. the target of `r`). -/
def attribute_get_value (edges : List Edge) (attr_id : String)
    (lin : List String) (q_time : Nat) : List Edge :=
  edges.filter fun e =>
    e.label == "HAS_VALUE" && (e.src == attr_id || e.tgt == attr_id) &&
      get_query_filter_relationships lin q_time e

/-- An `AttributeValue` node.  Its only properties are `type` and
`value`, which are exactly the `MERGE` key used by every query that
targets it. -/
structure AttributeValue where
  type : String
  value : String
deriving DecidableEq

/-- The store state the attribute queries act on: the `AttributeValue`
nodes, the `Boolean` singletons and the edges.  (`Node` and
`Attribute` nodes carry no state the claims depend on; the queries
only `MATCH` them.) -/
structure GraphState where
  attrValues : List AttributeValue
  booleans : List Bool
  edges : List Edge
deriving DecidableEq

/-- `MERGE (av:AttributeValue { type: $attribute_type, value: $value })`:
reuse the node when one with this `(type, value)` exists, create it
otherwise. -/
def merge_attribute_value (g : GraphState) (attribute_type value : String) :
    GraphState :=
  if (⟨attribute_type, value⟩ : AttributeValue) ∈ g.attrValues then g
  else { g with attrValues := g.attrValues ++ [⟨attribute_type, value⟩] }

/-- `MERGE (b:Boolean { value: $v })`. -/
def merge_boolean (g : GraphState) (v : Bool) : GraphState :=
  if v ∈ g.booleans then g
  else { g with booleans := g.booleans ++ [v] }

/-- The graph identity of the deduplicated `AttributeValue` node with
the given `(type, value)` key. -/
def av_id (attribute_type value : String) : String :=
  "AttributeValue:" ++ attribute_type ++ "|" ++ value

/-- The graph identity of a `Boolean` singleton. -/
def bool_id (v : Bool) : String :=
  if v then "Boolean:true" else "Boolean:false"

/-- `AttributeCreateQuery.query_add_create`: create the `Attribute`
node, a `HAS_ATTRIBUTE` edge from the owner, `MERGE` the
`AttributeValue`, a `HAS_VALUE` edge to it, `MERGE` the two `Boolean`
singletons and the `IS_PROTECTED` / `IS_VISIBLE` edges; every created
edge carries `{ branch: $branch, status: "active", from: $at, to: null }`.
(`_rel_to_node_label` / `_rel_to_value_label` default to
`HAS_ATTRIBUTE` / `HAS_VALUE`.) -/
def attribute_create (g : GraphState) (node_id attr_uuid branch : String)
    (attribute_type value : String) (is_protected is_visible : Bool)
    («at» : Nat) : GraphState :=
  let g1 := merge_attribute_value g attribute_type value
  let g2 := merge_boolean (merge_boolean g1 is_protected) is_visible
  { g2 with edges :=
      ⟨"HAS_ATTRIBUTE", node_id, attr_uuid, branch, "active", «at», none⟩ ::
      ⟨"HAS_VALUE", attr_uuid, av_id attribute_type value, branch, "active",
        «at», none⟩ ::
      ⟨"IS_PROTECTED", attr_uuid, bool_id is_protected, branch, "active",
        «at», none⟩ ::
      ⟨"IS_VISIBLE", attr_uuid, bool_id is_visible, branch, "active",
        «at», none⟩ :: g2.edges }

/-- The currently-active `HAS_VALUE` edge of attribute `attr_id` on
`branch`: `status = "active"` and open interval (`to = null`). -/
def is_active_value_edge (attr_id branch : String) (e : Edge) : Bool :=
  e.label == "HAS_VALUE" && e.src == attr_id && e.branch == branch &&
    e.status == "active" && e.«to» == none

/-- Modelled from the spec: when an attribute value is updated at `$at`
on a branch, "the existing `HAS_VALUE` edge is closed by setting its
`to = t`" (the closing update is issued by the attribute save flow,
which is not under src/; updates write on the write branch only). -/
def close_value_edge (attr_id branch : String) («at» : Nat) (e : Edge) :
    Edge :=
  if is_active_value_edge attr_id branch e then { e with «to» := some «at» }
  else e

/-- `AttributeUpdateValueQuery.query_init`: `MERGE` the
`AttributeValue` for the new literal and `CREATE` a new `HAS_VALUE`
edge `{ branch: $branch, status: "active", from: $at, to: null }`;
preceded by the spec-modelled closing of the previously-active edge
(`close_value_edge`). -/
def attribute_update_value (g : GraphState)
    (attr_id branch attribute_type value : String) («at» : Nat) :
    GraphState :=
  let g1 := merge_attribute_value g attribute_type value
  { g1 with edges :=
      ⟨"HAS_VALUE", attr_id, av_id attribute_type value, branch, "active",
        «at», none⟩ ::
        g1.edges.map (close_value_edge attr_id branch «at») }

/-- `AttributeDeleteQuery.query_init`: `MERGE` the `AttributeValue` and
`CREATE` two tombstone edges
`(n)-[:HAS_ATTRIBUTE { status: "deleted", from: $at, to: null }]->(a)`
and `(a)-[:HAS_VALUE { status: "deleted", ... }]->(av)` on the write
branch; nothing is matched for deletion. -/
def attribute_delete (g : GraphState)
    (node_id attr_id branch attribute_type value : String) («at» : Nat) :
    GraphState :=
  let g1 := merge_attribute_value g attribute_type value
  { g1 with edges :=
      ⟨"HAS_ATTRIBUTE", node_id, attr_id, branch, "deleted", «at», none⟩ ::
      ⟨"HAS_VALUE", attr_id, av_id attribute_type value, branch, "deleted",
        «at», none⟩ :: g1.edges }

/-- Spec invariant 3 / testable property 6: the `AttributeValue` nodes
are deduplicated.  An `AttributeValue` node is determined by its
`(type, value)` key, so "at most one node with `value=v, type=τ`" is
exactly: the list of `AttributeValue` nodes has no duplicate. -/
def dedup_invariant (g : GraphState) : Prop :=
  g.attrValues.Nodup

instance (g : GraphState) : Decidable (dedup_invariant g) := by
  unfold dedup_invariant
  exact inferInstance

/-- `DiffAction` of `infrahub.core.constants`. -/
inductive DiffAction where
  | ADDED
  | UPDATED
  | REMOVED
  | UNCHANGED
deriving DecidableEq

/-- One entry of `RelationshipDiffElement.nodes` (an endpoint of the
relationship): its node id and kind. -/
structure NodeInRel where
  id : String
  kind : String
deriving DecidableEq

/-- A `RelationshipDiffElement` as consumed by the diff endpoint:
`branch`, `id`, `name` (the on-edge schema identifier), the endpoint
nodes (a dict keyed by node id, kept in insertion order), the rendered
properties, `changed_at` and `action`. -/
structure RelationshipDiffElement where
  branch : String
  id : String
  name : String
  nodes : List NodeInRel
  properties : List String
  changed_at : Option Nat
  action : DiffAction
deriving DecidableEq

/-- The pydantic `BranchDiffRelationship` of `api/diff.py`. -/
structure BranchDiffRelationship where
  branch : String
  id : String
  identifier : String
  name : String
  peer : NodeInRel
  properties : List String
  changed_at : Option Nat
  action : DiffAction
deriving DecidableEq

/-- A node entry of `diff.get_nodes()` after `to_graphql()`: the
fields `BranchDiffNode(**item.to_graphql())` consumes.  `attributes`
entries are kept abstract (the attribute names). -/
structure NodeDiffElement where
  branch : String
  kind : String
  id : String
  changed_at : Option Nat
  action : DiffAction
  attributes : List String
deriving DecidableEq

/-- The pydantic `BranchDiffNode` of `api/diff.py`; `attributes` and
`relationships` default to `[]`. -/
structure BranchDiffNode where
  branch : String
  kind : String
  id : String
  changed_at : Option Nat
  action : DiffAction
  attributes : List String
  relationships : List BranchDiffRelationship
deriving DecidableEq

/-- `extract_diff_relationship(node_id, name, rel)`: the peer is the
first entry of `rel.nodes` whose id differs from `node_id`
(`[rel_node for rel_node in rel.nodes.values() if rel_node.id != node_id][0]`);
when every entry has id `node_id` the `[0]` indexing of the empty list
raises `IndexError`, modelled as `none`. -/
def extract_diff_relationship (node_id name : String)
    (rel : RelationshipDiffElement) : Option BranchDiffRelationship :=
  match rel.nodes.filter (fun rel_node => rel_node.id != node_id) with
  | [] => none
  | peer :: _ =>
    some { branch := rel.branch, id := rel.id, identifier := rel.name,
           name := name, peer := peer, properties := rel.properties,
           changed_at := rel.changed_at, action := rel.action }

/-- Python dict keys in insertion order: the first occurrence of each
element, in order. -/
def dict_keys (l : List String) : List String :=
  l.foldl (fun acc x => if x ∈ acc then acc else acc ++ [x]) []

/-- `rels_per_node[node_id]` of `get_diff_data`: the relationship
elements having `node_id` among their endpoint keys, in iteration
order.  `rels` is the flattening of the nested
`diff.get_relationships()` dict in iteration order. -/
def rels_per_node (rels : List RelationshipDiffElement)
    (node_id : String) : List RelationshipDiffElement :=
  rels.filter fun r => r.nodes.any fun n => n.id == node_id

/-- The keys of `rels_per_node`, in insertion order. -/
def rels_per_node_keys (rels : List RelationshipDiffElement) :
    List String :=
  dict_keys (rels.flatMap fun r => r.nodes.map fun n => n.id)

/-- `rel.nodes[node_id].kind`: dict lookup of an endpoint by id. -/
def kind_of (rel : RelationshipDiffElement) (node_id : String) : String :=
  match rel.nodes.find? (fun n => n.id == node_id) with
  | some n => n.kind
  | none => ""

/-- The outcome of a computation inside the `get_diff_data` request
handler: either a value, or `raised` — an uncaught Python exception
(`IndexError` from `extract_diff_relationship`, `NameError` on the
unbound `branch_name`) aborting the request. -/
inductive DiffResult (α : Type) where
  | raised
  | ok (val : α)
deriving DecidableEq

/-- Apply a function to the value of a non-raised outcome. -/
def DiffResult.map {α β : Type} (f : α → β) :
    DiffResult α → DiffResult β
  | .raised => .raised
  | .ok a => .ok (f a)

/-- The relationship diffs the first pass appends to a node's
`BranchDiffNode`: for each relationship of the node whose identifier
resolves in the schema of `(node_diff.branch, node_diff.kind)`,
`extract_diff_relationship` is appended; its `IndexError` propagates
(`none`) and aborts the request.  `schema branch kind identifier`
models
`registry.get_schema(name=kind, branch=branch).get_relationship_by_identifier(id=identifier)`
returning the schema-level relationship name. -/
def collect_first_pass_rels
    (schema : String → String → String → Option String)
    (branch kind node_id : String) :
    List RelationshipDiffElement → Option (List BranchDiffRelationship)
  | [] => some []
  | rel :: rest =>
    match schema branch kind rel.name with
    | none => collect_first_pass_rels schema branch kind node_id rest
    | some nm =>
      match extract_diff_relationship node_id nm rel with
      | none => none
      | some bdr =>
        (collect_first_pass_rels schema branch kind node_id rest).map
          fun rs => bdr :: rs

/-- First pass of `get_diff_data` for one node item: build the
`BranchDiffNode` from the item with its schema-resolving relationship
diffs attached; `none` when an `extract_diff_relationship` call
raises. -/
def node_diff_of (schema : String → String → String → Option String)
    (rels : List RelationshipDiffElement) (item : NodeDiffElement) :
    Option BranchDiffNode :=
  (collect_first_pass_rels schema item.branch item.kind item.id
    (rels_per_node rels item.id)).map fun rs =>
      { branch := item.branch, kind := item.kind, id := item.id,
        changed_at := item.changed_at, action := item.action,
        attributes := item.attributes, relationships := rs }

/-- The loop body of the second pass of `get_diff_data` for one node:
once an exception has been raised nothing further runs; otherwise, on
a relationship whose identifier resolves in the schema of
`(rel.branch, rel.nodes[node_in_rel].kind)`, `node_diff` is created
(at the first such relationship) with `action=UPDATED` and the
default empty attribute list, and the extracted relationship diff is
appended — an `extract_diff_relationship` `IndexError` raises. -/
def second_pass_step (schema : String → String → String → Option String)
    (node_in_rel : String) (acc : DiffResult (Option BranchDiffNode))
    (rel : RelationshipDiffElement) : DiffResult (Option BranchDiffNode) :=
  match acc with
  | .raised => .raised
  | .ok acc' =>
    match schema rel.branch (kind_of rel node_in_rel) rel.name with
    | none => .ok acc'
    | some nm =>
      let nd : BranchDiffNode := match acc' with
        | none =>
          { branch := rel.branch, kind := kind_of rel node_in_rel,
            id := node_in_rel, changed_at := none,
            action := DiffAction.UPDATED, attributes := [],
            relationships := [] }
        | some d => d
      match extract_diff_relationship node_in_rel nm rel with
      | some bdr =>
        .ok (some { nd with relationships := nd.relationships ++ [bdr] })
      | none => .raised

/-- Second pass of `get_diff_data` for one node that appears only as a
relationship endpoint: fold `second_pass_step` over its
relationships.  `.ok none` when no relationship identifier resolves
(the node is then not emitted); `.raised` when an extraction
raised. -/
def second_pass_node (schema : String → String → String → Option String)
    (node_in_rel : String) (nrels : List RelationshipDiffElement) :
    DiffResult (Option BranchDiffNode) :=
  nrels.foldl (second_pass_step schema node_in_rel) (DiffResult.ok none)

/-- The relationships the second pass attaches to a node: one
extracted diff per relationship whose identifier resolves in the
schema. -/
def second_pass_rels (schema : String → String → String → Option String)
    (node_in_rel : String) (nrels : List RelationshipDiffElement) :
    List BranchDiffRelationship :=
  nrels.filterMap fun rel =>
    match schema rel.branch (kind_of rel node_in_rel) rel.name with
    | some nm => extract_diff_relationship node_in_rel nm rel
    | none => none

/-- A relationship of `node_in_rel` whose extraction cannot raise: if
its identifier resolves in the schema, `extract_diff_relationship`
succeeds (the relationship has an endpoint other than
`node_in_rel`). -/
def no_failing_extraction
    (schema : String → String → String → Option String)
    (node_in_rel : String) (rel : RelationshipDiffElement) : Prop :=
  ∀ nm, schema rel.branch (kind_of rel node_in_rel) rel.name = some nm →
    (extract_diff_relationship node_in_rel nm rel).isSome

/-- Executable check for `no_failing_extraction`. -/
def no_failing_extraction_check
    (schema : String → String → String → Option String)
    (node_in_rel : String) (rel : RelationshipDiffElement) : Bool :=
  match schema rel.branch (kind_of rel node_in_rel) rel.name with
  | some nm => (extract_diff_relationship node_in_rel nm rel).isSome
  | none => true

instance (schema : String → String → String → Option String)
    (node_in_rel : String) (rel : RelationshipDiffElement) :
    Decidable (no_failing_extraction schema node_in_rel rel) :=
  decidable_of_iff
    (no_failing_extraction_check schema node_in_rel rel = true) (by
      unfold no_failing_extraction no_failing_extraction_check
      cases hs : schema rel.branch (kind_of rel node_in_rel) rel.name with
      | none => simp
      | some nm0 =>
        constructor
        · intro hx nm h
          injection h with h
          exact h ▸ hx
        · intro hall
          exact hall nm0 rfl)

/-- The first pass of `get_diff_data` over all branches: the
`(branch key, BranchDiffNode)` append events in order; `none` when a
`node_diff_of` raised. -/
def first_pass (schema : String → String → String → Option String)
    (rels : List RelationshipDiffElement) :
    List (String × List NodeDiffElement) →
      Option (List (String × BranchDiffNode))
  | [] => some []
  | (bn, items) :: rest =>
    match items.mapM (node_diff_of schema rels),
        first_pass schema rels rest with
    | some nds, some rest' =>
      some ((nds.map fun nd => (bn, nd)) ++ rest')
    | _, _ => none

/-- The second pass of `get_diff_data` over the relationship-only node
ids: the emitted `BranchDiffNode`s in order, skipping ids already in
`nodes_in_diff`; `.raised` propagates. -/
def second_pass (schema : String → String → String → Option String)
    (rels : List RelationshipDiffElement) (nodes_in_diff : List String) :
    List String → DiffResult (List BranchDiffNode)
  | [] => .ok []
  | nid :: rest =>
    if nodes_in_diff.contains nid then
      second_pass schema rels nodes_in_diff rest
    else
      match second_pass_node schema nid (rels_per_node rels nid),
          second_pass schema rels nodes_in_diff rest with
      | .raised, _ => .raised
      | .ok none, r => r
      | .ok (some _), .raised => .raised
      | .ok (some nd), .ok rest' => .ok (nd :: rest')

/-- `get_diff_data` (lines 99–153 of `api/diff.py`): the list of
`(branch key, BranchDiffNode)` append events to the `response`
defaultdict, in order, or `raised` when the handler aborts.  In the
second pass the code appends under `branch_name` — the loop variable
leaked from the first loop over `nodes.items()`, i.e. the *last*
branch key of `nodes` — not under the branch of the relationship that
surfaced the node.  When `nodes` is empty, `branch_name` is unbound
and the first second-pass append raises `NameError`. -/
def get_diff_data (schema : String → String → String → Option String)
    (nodes : List (String × List NodeDiffElement))
    (rels : List RelationshipDiffElement) :
    DiffResult (List (String × BranchDiffNode)) :=
  match first_pass schema rels nodes with
  | none => .raised
  | some fp =>
    let nodes_in_diff := nodes.flatMap fun p => p.2.map fun item => item.id
    match second_pass schema rels nodes_in_diff
        ((rels_per_node_keys rels).filter
          fun nid => !(nodes_in_diff.contains nid)) with
    | .raised => .raised
    | .ok snds =>
      match (nodes.map Prod.fst).getLast? with
      | some branch_name =>
        .ok (fp ++ snds.map fun nd => (branch_name, nd))
      | none =>
        match snds with
        | [] => .ok fp
        | _ :: _ => .raised

/-- The `Root` node: carries the graph topology version used by
on-start migrations. -/
structure Root where
  graph_version : Nat
deriving DecidableEq

/-- An `InfrahubMigration` instance; the selection in
`get_migrations` depends only on `minimum_version` (`name`
distinguishes instances).  The body of `Migration001`, the sole entry
of the module-level `MIGRATIONS` list, is not under src/, so the
selection is stated over an arbitrary migrations list. -/
structure InfrahubMigration where
  name : String
  minimum_version : Nat
deriving DecidableEq

/-- `get_migrations(root)`: iterate the `MIGRATIONS` list in order,
skip (`continue`) a migration when
`root.graph_version > migration.minimum_version`, append it
otherwise. -/
def get_migrations (migrations : List InfrahubMigration) (root : Root) :
    List InfrahubMigration :=
  match migrations with
  | [] => []
  | migration :: rest =>
    if root.graph_version > migration.minimum_version then
      get_migrations rest root
    else migration :: get_migrations rest root

/-- Modelled from the spec: a character of the branch-name class
`[A-Za-z0-9_\-./]` (the branch-name validation code is not under
src/; only the GraphQL test exercises it). -/
def valid_branch_char (c : Char) : Bool :=
  c.isAlphanum || c == '_' || c == '-' || c == '.' || c == '/'

/-- Modelled from the spec: the anchored branch-name grammar
`[A-Za-z0-9][A-Za-z0-9_\-./]{0,63}` — an alphanumeric head followed by
at most 63 characters of the class. -/
def valid_branch_name (s : String) : Bool :=
  match s.data with
  | [] => false
  | c :: rest =>
    c.isAlphanum && decide (rest.length ≤ 63) && rest.all valid_branch_char

/-- The create-branch error kinds of the spec's taxonomy. -/
inductive BranchCreateError where
  | InvalidBranchName
  | BranchExists
deriving DecidableEq

/-- Modelled from the spec: `create(name, ...)` of the Branch
Registry — reject a name outside the grammar with
`InvalidBranchName` (registering nothing), reject a taken name with
`BranchExists`, register the branch otherwise. -/
def branch_create (registry : List String) (name : String) :
    Except BranchCreateError (List String) :=
  if !(valid_branch_name name) then
    Except.error BranchCreateError.InvalidBranchName
  else if registry.contains name then
    Except.error BranchCreateError.BranchExists
  else Except.ok (registry ++ [name])

end Infrahub

namespace Infrahub

theorem get_query_filter_relationships_eq_visible (e : Edge)
    (lin : List String) (q_time : Nat) :
    get_query_filter_relationships lin q_time e = true ↔
      visible_at e lin q_time := by
  unfold get_query_filter_relationships visible_at
  rw [List.any_eq_true]
  constructor
  · rintro ⟨b, hb, hcond⟩
    simp only [Bool.and_eq_true, beq_iff_eq, decide_eq_true_eq] at hcond
    obtain ⟨⟨hbr, hfrom⟩, hto⟩ := hcond
    refine ⟨hbr ▸ hb, hfrom, ?_⟩
    cases h : e.«to» with
    | none => exact Or.inl rfl
    | some x =>
      right
      refine ⟨x, rfl, ?_⟩
      rw [h] at hto
      simpa using hto
  · rintro ⟨hbr, hfrom, hto⟩
    refine ⟨e.branch, hbr, ?_⟩
    have h1 : (e.branch == e.branch) = true := by simp
    have h2 : decide (e.«from» ≤ q_time) = true := by simpa using hfrom
    rw [h1, h2]
    cases h : e.«to» with
    | none => simp
    | some x =>
      rcases hto with h' | ⟨y, hy, hlt⟩
      · exact absurd h' (by simp [h])
      · rw [h] at hy
        injection hy with hy
        simp [hy, hlt]

theorem merge_attribute_value_edges (g : GraphState)
    (attribute_type value : String) :
    (merge_attribute_value g attribute_type value).edges = g.edges := by
  unfold merge_attribute_value
  split <;> rfl

theorem merge_boolean_attrValues (g : GraphState) (v : Bool) :
    (merge_boolean g v).attrValues = g.attrValues := by
  unfold merge_boolean
  split <;> rfl

theorem merge_attribute_value_mem (g : GraphState)
    (attribute_type value : String) (n : AttributeValue)
    (h : n ∈ g.attrValues) :
    n ∈ (merge_attribute_value g attribute_type value).attrValues := by
  unfold merge_attribute_value
  split
  · exact h
  · exact List.mem_append_left _ h

theorem merge_attribute_value_nodup (g : GraphState)
    (attribute_type value : String) (h : g.attrValues.Nodup) :
    (merge_attribute_value g attribute_type value).attrValues.Nodup := by
  unfold merge_attribute_value
  split
  · exact h
  · next hni =>
    simp only [List.nodup_append, List.nodup_cons, List.not_mem_nil,
      not_false_iff, List.nodup_nil, and_true, true_and]
    refine ⟨h, ?_⟩
    intro x hx hx'
    simp only [List.mem_singleton] at hx'
    exact hni (hx' ▸ hx)

theorem close_value_edge_branch (attr_id branch : String) («at» : Nat)
    (e : Edge) :
    (close_value_edge attr_id branch «at» e).branch = e.branch := by
  unfold close_value_edge
  split <;> rfl

theorem close_value_edge_of_ne_branch (attr_id branch : String)
    («at» : Nat) (e : Edge) (h : e.branch ≠ branch) :
    close_value_edge attr_id branch «at» e = e := by
  unfold close_value_edge
  split
  · next hc =>
    exfalso
    apply h
    unfold is_active_value_edge at hc
    simp only [Bool.and_eq_true, beq_iff_eq] at hc
    exact hc.1.1.2
  · rfl

theorem close_value_edge_not_active (attr_id branch : String) («at» : Nat)
    (e : Edge) :
    is_active_value_edge attr_id branch
      (close_value_edge attr_id branch «at» e) = false := by
  unfold close_value_edge
  split
  · unfold is_active_value_edge
    simp
  · next hc =>
    simp only [Bool.not_eq_true] at hc
    exact hc

theorem filter_map_congr_local {α : Type} (p : α → Bool) (f : α → α)
    (l : List α)
    (h : ∀ a ∈ l, f a = a ∨ (p a = false ∧ p (f a) = false)) :
    (l.map f).filter p = l.filter p := by
  induction l with
  | nil => rfl
  | cons x xs ih =>
    have hx := h x (List.mem_cons_self x xs)
    have hxs := ih fun a ha => h a (List.mem_cons_of_mem x ha)
    simp only [List.map_cons, List.filter_cons]
    rcases hx with h1 | ⟨h2, h3⟩
    · rw [h1, hxs]
    · rw [h2, h3, hxs]
      simp

theorem get_query_filter_false_of_not_mem (e : Edge) (lin : List String)
    (q_time : Nat) (h : e.branch ∉ lin) :
    get_query_filter_relationships lin q_time e = false := by
  cases hg : get_query_filter_relationships lin q_time e with
  | false => rfl
  | true =>
    exact absurd ((get_query_filter_relationships_eq_visible e lin
      q_time).1 hg).1 h

theorem merge_attribute_value_booleans (g : GraphState)
    (attribute_type value : String) :
    (merge_attribute_value g attribute_type value).booleans = g.booleans := by
  unfold merge_attribute_value
  split <;> rfl

theorem merge_attribute_value_self_mem (g : GraphState)
    (attribute_type value : String) :
    (⟨attribute_type, value⟩ : AttributeValue) ∈
      (merge_attribute_value g attribute_type value).attrValues := by
  unfold merge_attribute_value
  split
  · next h => exact h
  · exact List.mem_append_right _ (List.mem_singleton.2 rfl)

theorem attribute_update_value_edges (g : GraphState)
    (attr_id branch attribute_type value : String) («at» : Nat) :
    (attribute_update_value g attr_id branch attribute_type value «at»).edges
      = (⟨"HAS_VALUE", attr_id, av_id attribute_type value, branch,
          "active", «at», none⟩ : Edge) ::
        g.edges.map (close_value_edge attr_id branch «at») := by
  unfold attribute_update_value
  simp only [merge_attribute_value_edges]

theorem attribute_update_value_attrValues (g : GraphState)
    (attr_id branch attribute_type value : String) («at» : Nat) :
    (attribute_update_value g attr_id branch attribute_type value
        «at»).attrValues
      = (merge_attribute_value g attribute_type value).attrValues := by
  unfold attribute_update_value
  rfl

theorem attribute_create_attrValues (g : GraphState)
    (node_id attr_uuid branch attribute_type value : String)
    (is_protected is_visible : Bool) («at» : Nat) :
    (attribute_create g node_id attr_uuid branch attribute_type value
        is_protected is_visible «at»).attrValues
      = (merge_attribute_value g attribute_type value).attrValues := by
  unfold attribute_create
  simp only [merge_boolean_attrValues]

theorem attribute_delete_edges (g : GraphState)
    (node_id attr_id branch attribute_type value : String) («at» : Nat) :
    (attribute_delete g node_id attr_id branch attribute_type value
        «at»).edges
      = (⟨"HAS_ATTRIBUTE", node_id, attr_id, branch, "deleted", «at»,
          none⟩ : Edge) ::
        (⟨"HAS_VALUE", attr_id, av_id attribute_type value, branch,
          "deleted", «at», none⟩ : Edge) :: g.edges := by
  unfold attribute_delete
  simp only [merge_attribute_value_edges]

theorem attribute_delete_attrValues (g : GraphState)
    (node_id attr_id branch attribute_type value : String) («at» : Nat) :
    (attribute_delete g node_id attr_id branch attribute_type value
        «at»).attrValues
      = (merge_attribute_value g attribute_type value).attrValues := by
  unfold attribute_delete
  rfl

/-- C2: an attribute value update at `«at»` on `branch` closes the
previously-active `HAS_VALUE` edge of the attribute on that branch by
setting its `to = «at»`, and creates exactly one new `HAS_VALUE` edge
`(branch, active, from = «at», to = null)` to the deduplicated
`AttributeValue` node of the new literal; afterwards that new edge is
the only active `HAS_VALUE` edge of the attribute on the branch. -/
theorem attribute_update_value_closes_and_opens
    (g : GraphState) (attr_id branch attribute_type value : String)
    («at» : Nat) :
    ((attribute_update_value g attr_id branch attribute_type value
        «at»).edges.length = g.edges.length + 1) ∧
    ((⟨"HAS_VALUE", attr_id, av_id attribute_type value, branch, "active",
        «at», none⟩ : Edge) ∈
      (attribute_update_value g attr_id branch attribute_type value
        «at»).edges) ∧
    (∀ e ∈ g.edges, is_active_value_edge attr_id branch e = true →
      { e with «to» := some «at» } ∈
        (attribute_update_value g attr_id branch attribute_type value
          «at»).edges) ∧
    ((attribute_update_value g attr_id branch attribute_type value
        «at»).edges.filter (is_active_value_edge attr_id branch)
      = [⟨"HAS_VALUE", attr_id, av_id attribute_type value, branch,
          "active", «at», none⟩]) := by
  have hedges := attribute_update_value_edges g attr_id branch
    attribute_type value «at»
  refine ⟨?_, ?_, ?_, ?_⟩
  · rw [hedges]
    simp
  · rw [hedges]
    exact List.mem_cons_self _ _
  · intro e he hact
    rw [hedges]
    apply List.mem_cons_of_mem
    have hclose : close_value_edge attr_id branch «at» e
        = { e with «to» := some «at» } := by
      unfold close_value_edge
      rw [hact]
      simp
    exact hclose ▸ List.mem_map_of_mem _ he
  · rw [hedges, List.filter_cons]
    have hnew : is_active_value_edge attr_id branch
        ⟨"HAS_VALUE", attr_id, av_id attribute_type value, branch,
          "active", «at», none⟩ = true := by
      simp [is_active_value_edge]
    rw [hnew]
    have hnil : (g.edges.map
        (close_value_edge attr_id branch «at»)).filter
        (is_active_value_edge attr_id branch) = [] := by
      rw [List.filter_eq_nil_iff]
      intro e' he'
      obtain ⟨e, _, rfl⟩ := List.mem_map.1 he'
      simp [close_value_edge_not_active]
    simp [hnil]

/-- C3: an attribute update on `branch` writes only edges carrying that
branch; for any query lineage `lin` that does not contain `branch`
(e.g. the lineage of the parent), the set of edges passing the
branch/time filter — and with it the result of
`AttributeGetValueQuery` for every attribute — is unchanged. -/
theorem attribute_update_branch_isolation
    (g : GraphState) (attr_id branch attribute_type value : String)
    («at» : Nat) (lin : List String) (q_time : Nat) (hb : branch ∉ lin) :
    (∀ e ∈ (attribute_update_value g attr_id branch attribute_type value
        «at»).edges, e.branch = branch ∨ e ∈ g.edges) ∧
    ((attribute_update_value g attr_id branch attribute_type value
        «at»).edges.filter
          (fun e => get_query_filter_relationships lin q_time e)
      = g.edges.filter
          (fun e => get_query_filter_relationships lin q_time e)) ∧
    (∀ a : String,
      attribute_get_value
        (attribute_update_value g attr_id branch attribute_type value
          «at»).edges a lin q_time
      = attribute_get_value g.edges a lin q_time) := by
  have hedges := attribute_update_value_edges g attr_id branch
    attribute_type value «at»
  have hmain : ∀ (p : Edge → Bool),
      (∀ e, e.branch ∉ lin → p e = false) →
      (attribute_update_value g attr_id branch attribute_type value
        «at»).edges.filter p = g.edges.filter p := by
    intro p hp
    rw [hedges, List.filter_cons]
    have hnew : p ⟨"HAS_VALUE", attr_id, av_id attribute_type value,
        branch, "active", «at», none⟩ = false := hp _ hb
    rw [hnew]
    simp only [Bool.false_eq_true, if_false]
    apply filter_map_congr_local
    intro e _
    by_cases hbr : e.branch = branch
    · right
      have h1 : p e = false := hp e (hbr ▸ hb)
      have h2 : p (close_value_edge attr_id branch «at» e) = false := by
        apply hp
        rw [close_value_edge_branch, hbr]
        exact hb
      exact ⟨h1, h2⟩
    · left
      exact close_value_edge_of_ne_branch attr_id branch «at» e hbr
  refine ⟨?_, ?_, ?_⟩
  · intro e he
    rw [hedges] at he
    rcases List.mem_cons.1 he with rfl | he'
    · exact Or.inl rfl
    · obtain ⟨e0, he0, rfl⟩ := List.mem_map.1 he'
      by_cases hbr : e0.branch = branch
      · exact Or.inl ((close_value_edge_branch _ _ _ _).trans hbr)
      · rw [close_value_edge_of_ne_branch attr_id branch «at» e0 hbr]
        exact Or.inr he0
  · exact hmain _ fun e he => get_query_filter_false_of_not_mem e lin
      q_time he
  · intro a
    unfold attribute_get_value
    apply hmain
    intro e he
    rw [get_query_filter_false_of_not_mem e lin q_time he]
    simp

/-- C6: every one of attribute create, update and delete `MERGE`s (and
never unconditionally creates) the `AttributeValue` node it targets:
each preserves "at most one `AttributeValue` node per `(value, type)`
key" (= no duplicate in the node list, spelled out as a count bound)
and never deletes an `AttributeValue` node. -/
theorem attribute_value_dedup
    (g : GraphState) (node_id attr_uuid attr_id branch : String)
    (attribute_type value : String) (is_protected is_visible : Bool)
    («at» : Nat) (h : dedup_invariant g) :
    dedup_invariant (attribute_create g node_id attr_uuid branch
      attribute_type value is_protected is_visible «at») ∧
    dedup_invariant (attribute_update_value g attr_id branch
      attribute_type value «at») ∧
    dedup_invariant (attribute_delete g node_id attr_id branch
      attribute_type value «at») ∧
    (∀ n ∈ g.attrValues,
      n ∈ (attribute_create g node_id attr_uuid branch attribute_type
        value is_protected is_visible «at»).attrValues ∧
      n ∈ (attribute_update_value g attr_id branch attribute_type value
        «at»).attrValues ∧
      n ∈ (attribute_delete g node_id attr_id branch attribute_type
        value «at»).attrValues) ∧
    (dedup_invariant g ↔ ∀ τ v : String,
      (g.attrValues.countP fun n => n.type == τ && n.value == v) ≤ 1) := by
  have hmerge := merge_attribute_value_nodup g attribute_type value h
  have hcount : ∀ (τ v : String),
      (g.attrValues.countP fun n => n.type == τ && n.value == v)
        = g.attrValues.count (⟨τ, v⟩ : AttributeValue) := by
    intro τ v
    rw [List.count]
    apply List.countP_congr
    intro n _
    cases n with
    | mk t w =>
      rw [Bool.eq_iff_iff]
      simp [AttributeValue.mk.injEq, and_comm]
  refine ⟨?_, ?_, ?_, ?_, ?_⟩
  · unfold dedup_invariant
    rw [attribute_create_attrValues]
    exact hmerge
  · unfold dedup_invariant
    rw [attribute_update_value_attrValues]
    exact hmerge
  · unfold dedup_invariant
    rw [attribute_delete_attrValues]
    exact hmerge
  · intro n hn
    have hm := merge_attribute_value_mem g attribute_type value n hn
    exact ⟨by rw [attribute_create_attrValues]; exact hm,
      by rw [attribute_update_value_attrValues]; exact hm,
      by rw [attribute_delete_attrValues]; exact hm⟩
  · unfold dedup_invariant
    rw [List.nodup_iff_count_le_one]
    constructor
    · intro hall τ v
      rw [hcount]
      exact hall _
    · intro hall a
      cases a with
      | mk τ v =>
        rw [← hcount]
        exact hall τ v

/-- C7: deleting an attribute at `«at»` on `branch` tombstones rather
than removes: it creates exactly one new `HAS_ATTRIBUTE` edge from the
owning node to the attribute and one new value edge to the merged
`AttributeValue`, both `(status = "deleted", from = «at», to = null)`
on `branch`, and no previously existing edge or node is removed. -/
theorem attribute_delete_tombstones
    (g : GraphState) (node_id attr_id branch attribute_type value : String)
    («at» : Nat) :
    ((attribute_delete g node_id attr_id branch attribute_type value
        «at»).edges
      = ⟨"HAS_ATTRIBUTE", node_id, attr_id, branch, "deleted", «at»,
          none⟩ ::
        ⟨"HAS_VALUE", attr_id, av_id attribute_type value, branch,
          "deleted", «at», none⟩ :: g.edges) ∧
    (∀ e ∈ g.edges,
      e ∈ (attribute_delete g node_id attr_id branch attribute_type
        value «at»).edges) ∧
    (∀ n ∈ g.attrValues,
      n ∈ (attribute_delete g node_id attr_id branch attribute_type
        value «at»).attrValues) ∧
    ((attribute_delete g node_id attr_id branch attribute_type value
        «at»).booleans = g.booleans) ∧
    ((⟨attribute_type, value⟩ : AttributeValue) ∈
      (attribute_delete g node_id attr_id branch attribute_type value
        «at»).attrValues) := by
  have hedges := attribute_delete_edges g node_id attr_id branch
    attribute_type value «at»
  refine ⟨hedges, ?_, ?_, ?_, ?_⟩
  · intro e he
    rw [hedges]
    exact List.mem_cons_of_mem _ (List.mem_cons_of_mem _ he)
  · intro n hn
    rw [attribute_delete_attrValues]
    exact merge_attribute_value_mem g attribute_type value n hn
  · unfold attribute_delete
    simp only [merge_attribute_value_booleans]
  · rw [attribute_delete_attrValues]
    exact merge_attribute_value_self_mem g attribute_type value

theorem head_filter_eq_find {α : Type} (p : α → Bool) (l : List α) :
    (l.filter p).head? = l.find? p := by
  induction l with
  | nil => rfl
  | cons x xs ih =>
    cases hp : p x <;> simp [List.filter_cons, List.find?_cons, hp, ih]

/-- C1: `AttributeGetValueQuery` returns (the `HAS_VALUE` edge
carrying) a value only if that edge is visible at
`(q_branch, q_time)` in the sense of the spec's validity arithmetic,
and the edge filter it installs is exactly the disjunction, over all
branches of `lineage(q_branch)`, of the visibility predicate. -/
theorem attribute_get_value_spec (edges : List Edge) (attr_id : String)
    (lin : List String) (q_time : Nat) :
    (∀ e ∈ attribute_get_value edges attr_id lin q_time,
      e.label = "HAS_VALUE" ∧ e ∈ edges ∧ visible_at e lin q_time) ∧
    (∀ e : Edge,
      get_query_filter_relationships lin q_time e = true ↔
        visible_at e lin q_time) := by
  constructor
  · intro e he
    unfold attribute_get_value at he
    have hmem := List.mem_of_mem_filter he
    have hp := List.of_mem_filter he
    simp only [Bool.and_eq_true, beq_iff_eq] at hp
    exact ⟨hp.1.1,  hmem,
      (get_query_filter_relationships_eq_visible e lin q_time).1 hp.2⟩
  · intro e
    exact get_query_filter_relationships_eq_visible e lin q_time

/-- C9: `extract_diff_relationship` requires a node of `rel.nodes`
whose id differs from `node_id`; it selects the first such node as the
peer, and when every node has id `node_id` the selection fails (an
`IndexError` in Python, `none` here). -/
theorem extract_diff_relationship_peer (node_id name : String)
    (rel : RelationshipDiffElement) :
    ((extract_diff_relationship node_id name rel).isSome ↔
      ∃ n ∈ rel.nodes, n.id ≠ node_id) ∧
    ((extract_diff_relationship node_id name rel).map
        BranchDiffRelationship.peer
      = rel.nodes.find? fun n => n.id != node_id) ∧
    ((∀ n ∈ rel.nodes, n.id = node_id) →
      extract_diff_relationship node_id name rel = none) := by
  have hfind := head_filter_eq_find
    (fun n : NodeInRel => n.id != node_id) rel.nodes
  refine ⟨?_, ?_, ?_⟩
  · unfold extract_diff_relationship
    cases h : rel.nodes.filter (fun rel_node => rel_node.id != node_id) with
    | nil =>
      simp only [Option.isSome_none, Bool.false_eq_true, false_iff]
      rintro ⟨n, hn, hne⟩
      have : n ∈ rel.nodes.filter
          (fun rel_node => rel_node.id != node_id) :=
        List.mem_filter.2 ⟨hn, by simpa using hne⟩
      rw [h] at this
      exact List.not_mem_nil n this
    | cons peer rest =>
      simp only [Option.isSome_some, true_iff]
      have hpm : peer ∈ rel.nodes.filter
          (fun rel_node => rel_node.id != node_id) := by
        rw [h]
        exact List.mem_cons_self _ _
      exact ⟨peer, List.mem_of_mem_filter hpm,
        by simpa using List.of_mem_filter hpm⟩
  · rw [← hfind]
    unfold extract_diff_relationship
    cases h : rel.nodes.filter (fun rel_node => rel_node.id != node_id) with
    | nil => simp
    | cons peer rest => simp
  · intro hall
    unfold extract_diff_relationship
    cases h : rel.nodes.filter (fun rel_node => rel_node.id != node_id) with
    | nil => simp
    | cons peer rest =>
      exfalso
      have hpm : peer ∈ rel.nodes.filter
          (fun rel_node => rel_node.id != node_id) := by
        rw [h]
        exact List.mem_cons_self _ _
      have := List.of_mem_filter hpm
      simp only [bne_iff_ne, ne_eq] at this
      exact this (hall peer (List.mem_of_mem_filter hpm))

theorem second_pass_fold_raised
    (schema : String → String → String → Option String) (nid : String)
    (l : List RelationshipDiffElement) :
    l.foldl (second_pass_step schema nid) DiffResult.raised
      = DiffResult.raised := by
  induction l with
  | nil => rfl
  | cons rel rest ih =>
    simp only [List.foldl_cons]
    have hstep : second_pass_step schema nid DiffResult.raised rel
        = DiffResult.raised := rfl
    rw [hstep, ih]

theorem second_pass_fold_spec
    (schema : String → String → String → Option String) (nid : String)
    (l : List RelationshipDiffElement) :
    ∀ acc : Option BranchDiffNode,
    ((l.foldl (second_pass_step schema nid) (DiffResult.ok acc)
        = DiffResult.ok none) ↔
      (acc = none ∧ ∀ rel ∈ l,
        schema rel.branch (kind_of rel nid) rel.name = none)) ∧
    (∀ nd, l.foldl (second_pass_step schema nid) (DiffResult.ok acc)
        = DiffResult.ok (some nd) →
      (∀ d, acc = some d →
        nd.action = d.action ∧ nd.attributes = d.attributes ∧
        nd.id = d.id ∧
        nd.relationships
          = d.relationships ++ second_pass_rels schema nid l) ∧
      (acc = none →
        nd.action = DiffAction.UPDATED ∧ nd.attributes = [] ∧
        nd.id = nid ∧
        nd.relationships = second_pass_rels schema nid l)) := by
  induction l with
  | nil =>
    intro acc
    constructor
    · simp
    · intro nd hnd
      simp only [List.foldl_nil] at hnd
      injection hnd with hnd
      constructor
      · intro d hd
        rw [hd] at hnd
        injection hnd with hnd
        simp [hnd, second_pass_rels]
      · intro h0
        rw [h0] at hnd
        exact absurd hnd (by simp)
  | cons rel rest ih =>
    intro acc
    have hrels : second_pass_rels schema nid (rel :: rest)
        = (match schema rel.branch (kind_of rel nid) rel.name with
           | some nm =>
             match extract_diff_relationship nid nm rel with
             | some bdr => [bdr]
             | none => []
           | none => []) ++ second_pass_rels schema nid rest := by
      unfold second_pass_rels
      rw [List.filterMap_cons]
      cases hs : schema rel.branch (kind_of rel nid) rel.name with
      | none => simp
      | some nm =>
        cases hx : extract_diff_relationship nid nm rel with
        | none => simp [hx]
        | some bdr => simp [hx]
    simp only [List.foldl_cons]
    cases hs : schema rel.branch (kind_of rel nid) rel.name with
    | none =>
      have hstep : second_pass_step schema nid (DiffResult.ok acc) rel
          = DiffResult.ok acc := by
        simp [second_pass_step, hs]
      rw [hstep]
      constructor
      · rw [(ih acc).1]
        constructor
        · rintro ⟨h1, h2⟩
          exact ⟨h1, fun r hr => by
            rcases List.mem_cons.1 hr with rfl | hr'
            · exact hs
            · exact h2 r hr'⟩
        · rintro ⟨h1, h2⟩
          exact ⟨h1, fun r hr => h2 r (List.mem_cons_of_mem _ hr)⟩
      · intro nd hnd
        have hih := (ih acc).2 nd hnd
        have hrw : second_pass_rels schema nid (rel :: rest)
            = second_pass_rels schema nid rest := by
          rw [hrels, hs]
          simp
        constructor
        · intro d hd
          rw [hrw]
          exact hih.1 d hd
        · intro h0
          rw [hrw]
          exact hih.2 h0
    | some nm =>
      have hcons : second_pass_rels schema nid (rel :: rest)
          = (match extract_diff_relationship nid nm rel with
             | some bdr => [bdr]
             | none => []) ++ second_pass_rels schema nid rest := by
        rw [hrels, hs]
      cases hx : extract_diff_relationship nid nm rel with
      | none =>
        have hstep : second_pass_step schema nid (DiffResult.ok acc) rel
            = DiffResult.raised := by
          cases acc <;> simp [second_pass_step, hs, hx]
        rw [hstep, second_pass_fold_raised]
        constructor
        · constructor
          · intro h
            exact absurd h (by simp)
          · rintro ⟨_, h2⟩
            exact absurd (h2 rel (List.mem_cons_self _ _)) (by simp [hs])
        · intro nd hnd
          exact absurd hnd (by simp)
      | some bdr =>
        cases acc with
        | none =>
          have hstep : second_pass_step schema nid (DiffResult.ok none) rel
              = DiffResult.ok (some
                { branch := rel.branch, kind := kind_of rel nid,
                  id := nid, changed_at := none,
                  action := DiffAction.UPDATED, attributes := [],
                  relationships := [bdr] }) := by
            simp [second_pass_step, hs, hx]
          rw [hstep]
          constructor
          · constructor
            · intro hn
              have := ((ih _).1).1 hn
              exact absurd this (by simp)
            · rintro ⟨_, h2⟩
              exact absurd (h2 rel (List.mem_cons_self _ _)) (by simp [hs])
          · intro nd hnd
            constructor
            · intro d hd
              exact absurd hd (by simp)
            · intro _
              have := ((ih _).2 nd hnd).1 _ rfl
              refine ⟨this.1, this.2.1, this.2.2.1, ?_⟩
              rw [this.2.2.2, hcons, hx]
        | some d =>
          have hstep : second_pass_step schema nid
              (DiffResult.ok (some d)) rel
              = DiffResult.ok (some
                { d with relationships := d.relationships ++ [bdr] }) := by
            simp [second_pass_step, hs, hx]
          rw [hstep]
          constructor
          · constructor
            · intro hn
              have := ((ih _).1).1 hn
              exact absurd this (by simp)
            · rintro ⟨h1, _⟩
              exact absurd h1 (by simp)
          · intro nd hnd
            constructor
            · intro d' hd'
              injection hd' with hd'
              subst hd'
              have := ((ih _).2 nd hnd).1 _ rfl
              refine ⟨this.1, this.2.1, this.2.2.1, ?_⟩
              rw [this.2.2.2, hcons, hx]
              simp
            · intro h0
              exact absurd h0 (by simp)

theorem second_pass_fold_no_raise
    (schema : String → String → String → Option String) (nid : String) :
    ∀ (l : List RelationshipDiffElement) (acc : Option BranchDiffNode),
      (∀ rel ∈ l, no_failing_extraction schema nid rel) →
      ∃ o, l.foldl (second_pass_step schema nid) (DiffResult.ok acc)
        = DiffResult.ok o := by
  intro l
  induction l with
  | nil => exact fun acc _ => ⟨acc, rfl⟩
  | cons rel rest ih =>
    intro acc H
    have Hrest : ∀ r ∈ rest, no_failing_extraction schema nid r :=
      fun r hr => H r (List.mem_cons_of_mem _ hr)
    simp only [List.foldl_cons]
    cases hs : schema rel.branch (kind_of rel nid) rel.name with
    | none =>
      have hstep : second_pass_step schema nid (DiffResult.ok acc) rel
          = DiffResult.ok acc := by
        simp [second_pass_step, hs]
      rw [hstep]
      exact ih acc Hrest
    | some nm =>
      have hex : (extract_diff_relationship nid nm rel).isSome :=
        H rel (List.mem_cons_self _ _) nm hs
      cases hx : extract_diff_relationship nid nm rel with
      | none =>
        rw [hx] at hex
        exact absurd hex (by simp)
      | some bdr =>
        cases acc with
        | none =>
          have hstep : second_pass_step schema nid
              (DiffResult.ok none) rel
              = DiffResult.ok (some
                { branch := rel.branch, kind := kind_of rel nid,
                  id := nid, changed_at := none,
                  action := DiffAction.UPDATED, attributes := [],
                  relationships := [bdr] }) := by
            simp [second_pass_step, hs, hx]
          rw [hstep]
          exact ih _ Hrest
        | some d =>
          have hstep : second_pass_step schema nid
              (DiffResult.ok (some d)) rel
              = DiffResult.ok (some
                { d with relationships := d.relationships ++ [bdr] }) := by
            simp [second_pass_step, hs, hx]
          rw [hstep]
          exact ih _ Hrest

/-- C5: a node emitted by the second pass of the diff (it appears only
as an endpoint of changed relationships) is emitted with
`action = UPDATED` and an empty `attributes` list, carrying exactly
the schema-resolving changed relationships that touched it; and when
no extraction raises (every schema-resolving relationship of the node
has a peer endpoint), it is emitted precisely when at least one of its
relationships' identifiers resolves in the schema. -/
theorem second_pass_node_updated_empty_attributes
    (schema : String → String → String → Option String)
    (node_in_rel : String) (nrels : List RelationshipDiffElement) :
    (∀ nd, second_pass_node schema node_in_rel nrels
        = DiffResult.ok (some nd) →
      nd.action = DiffAction.UPDATED ∧ nd.attributes = [] ∧
      nd.id = node_in_rel ∧
      nd.relationships = second_pass_rels schema node_in_rel nrels) ∧
    ((∀ rel ∈ nrels, no_failing_extraction schema node_in_rel rel) →
      ((∃ nd, second_pass_node schema node_in_rel nrels
          = DiffResult.ok (some nd)) ↔
        ∃ rel ∈ nrels,
          (schema rel.branch (kind_of rel node_in_rel)
            rel.name).isSome)) := by
  have h := second_pass_fold_spec schema node_in_rel nrels none
  constructor
  · intro nd hnd
    exact (h.2 nd hnd).2 rfl
  · intro H
    constructor
    · rintro ⟨nd, hnd⟩
      by_contra hno
      push_neg at hno
      have hnone : second_pass_node schema node_in_rel nrels
          = DiffResult.ok none := by
        unfold second_pass_node
        exact (h.1).2 ⟨rfl, fun rel hrel =>
          Option.not_isSome_iff_eq_none.1 (by simpa using hno rel hrel)⟩
      rw [hnd] at hnone
      exact absurd hnone (by simp)
    · rintro ⟨rel, hrel, hres⟩
      obtain ⟨o, ho⟩ :=
        second_pass_fold_no_raise schema node_in_rel nrels none H
      cases o with
      | some nd => exact ⟨nd, ho⟩
      | none =>
        have := ((h.1).1 ho).2 rel hrel
        rw [this] at hres
        exact absurd hres (by simp)

/-- C4 (the code evaluated at a failing input): with one diffed node
on branch `main` and a relationship on branch `branch2` surfacing node
`p1` (absent from the node diffs), the second-pass `NodeDiff` carries
`branch = "branch2"` but is keyed under `"main"` — the `branch_name`
loop variable leaked from the first loop over `nodes.items()` — not
under the branch of the relationship that surfaced it. -/
theorem get_diff_data_second_pass_wrong_key :
    ((get_diff_data (fun _ _ _ => some "cars")
        [("main",
          [{ branch := "main", kind := "Car", id := "c3",
             changed_at := some 3, action := DiffAction.ADDED,
             attributes := ["name"] }])]
        [{ branch := "branch2", id := "r1", name := "person__car",
           nodes := [⟨"c3", "Car"⟩, ⟨"p1", "Person"⟩],
           properties := [], changed_at := some 4,
           action := DiffAction.ADDED }]).map
      (List.map fun kv => (kv.1, kv.2.branch, kv.2.id)))
      = DiffResult.ok
          [("main", "main", "c3"), ("main", "branch2", "p1")] := by
  rfl

/-- C10: `get_migrations` returns exactly the migrations of the list,
in list order, whose `minimum_version` is greater than or equal to
`root.graph_version`; in particular a migration whose
`minimum_version` equals the current `graph_version` is returned
(only `root.graph_version` strictly greater skips it). -/
theorem get_migrations_spec (migrations : List InfrahubMigration)
    (root : Root) :
    (∀ m : InfrahubMigration,
      m ∈ get_migrations migrations root ↔
        m ∈ migrations ∧ root.graph_version ≤ m.minimum_version) ∧
    (get_migrations migrations root).Sublist migrations ∧
    (get_migrations migrations root
      = migrations.filter fun m =>
          decide (root.graph_version ≤ m.minimum_version)) := by
  have hfil : get_migrations migrations root
      = migrations.filter fun m =>
          decide (root.graph_version ≤ m.minimum_version) := by
    induction migrations with
    | nil => rfl
    | cons m rest ih =>
      unfold get_migrations
      rw [List.filter_cons]
      by_cases h : root.graph_version > m.minimum_version
      · have hn : ¬root.graph_version ≤ m.minimum_version := Nat.not_le.2 h
        simp [h, hn, ih]
      · have hle : root.graph_version ≤ m.minimum_version := Nat.not_lt.1 h
        simp [h, hle, ih]
  refine ⟨?_, ?_, hfil⟩
  · intro m
    rw [hfil, List.mem_filter]
    simp
  · rw [hfil]
    exact List.filter_sublist _

/-- C8: branch creation accepts exactly the names of the grammar
`[A-Za-z0-9][A-Za-z0-9_\-./]{0,63}`: it fails with
`InvalidBranchName` precisely on the names outside it (registering
nothing), and e.g. `"not valid"`, a name starting with `-` and a
65-character name are outside it. -/
theorem branch_create_invalid_names (registry : List String)
    (name : String) :
    ((branch_create registry name
        = Except.error BranchCreateError.InvalidBranchName) ↔
      valid_branch_name name = false) ∧
    (∀ registry2, branch_create registry name = Except.ok registry2 →
      valid_branch_name name = true ∧ registry2 = registry ++ [name]) ∧
    (valid_branch_name "not valid" = false ∧
      valid_branch_name "-branch" = false ∧
      valid_branch_name (String.mk (List.replicate 65 'a')) = false ∧
      valid_branch_name "branch2" = true) := by
  refine ⟨⟨?_, ?_⟩, ?_, by decide⟩
  · intro hcre
    cases hv : valid_branch_name name with
    | false => rfl
    | true =>
      unfold branch_create at hcre
      rw [hv] at hcre
      cases hc : registry.contains name with
      | true =>
        rw [hc] at hcre
        exact absurd hcre (by simp)
      | false =>
        rw [hc] at hcre
        exact absurd hcre (by simp)
  · intro hv
    unfold branch_create
    rw [hv]
    rfl
  · intro registry2 hok
    cases hv : valid_branch_name name with
    | false =>
      unfold branch_create at hok
      rw [hv] at hok
      exact absurd hok (by simp)
    | true =>
      unfold branch_create at hok
      rw [hv] at hok
      cases hc : registry.contains name with
      | true =>
        rw [hc] at hok
        exact absurd hok (by simp)
      | false =>
        rw [hc] at hok
        simp only [Bool.not_true, Bool.false_eq_true, if_false,
          if_neg] at hok
        refine ⟨rfl, ?_⟩
        cases hok with
        | refl => rfl

theorem attribute_get_value_spec_witness :
    (⟨"HAS_VALUE", "a1", "v1", "main", "active", 1, none⟩ : Edge).label
        = "HAS_VALUE" ∧
    (⟨"HAS_VALUE", "a1", "v1", "main", "active", 1, none⟩ : Edge) ∈
      [(⟨"HAS_VALUE", "a1", "v1", "main", "active", 1, none⟩ : Edge)] ∧
    visible_at ⟨"HAS_VALUE", "a1", "v1", "main", "active", 1, none⟩
      ["main"] 5 :=
  (attribute_get_value_spec
    [⟨"HAS_VALUE", "a1", "v1", "main", "active", 1, none⟩]
    "a1" ["main"] 5).1
    ⟨"HAS_VALUE", "a1", "v1", "main", "active", 1, none⟩ (by decide)

theorem attribute_update_value_closes_and_opens_witness :
    ({ (⟨"HAS_VALUE", "a1", "old", "main", "active", 1, none⟩ : Edge)
        with «to» := some 7 }) ∈
      (attribute_update_value
        ⟨[], [], [⟨"HAS_VALUE", "a1", "old", "main", "active", 1, none⟩]⟩
        "a1" "main" "Str" "new" 7).edges :=
  (attribute_update_value_closes_and_opens
    ⟨[], [], [⟨"HAS_VALUE", "a1", "old", "main", "active", 1, none⟩]⟩
    "a1" "main" "Str" "new" 7).2.2.1
    ⟨"HAS_VALUE", "a1", "old", "main", "active", 1, none⟩
    (by decide) (by decide)

theorem attribute_update_branch_isolation_witness :
    attribute_get_value
      (attribute_update_value
        ⟨[], [], [⟨"HAS_VALUE", "a1", "old", "main", "active", 1, none⟩]⟩
        "a1" "branch2" "Str" "new" 7).edges "a1" ["main"] 9
      = attribute_get_value
        [⟨"HAS_VALUE", "a1", "old", "main", "active", 1, none⟩]
        "a1" ["main"] 9 :=
  (attribute_update_branch_isolation
    ⟨[], [], [⟨"HAS_VALUE", "a1", "old", "main", "active", 1, none⟩]⟩
    "a1" "branch2" "Str" "new" 7 ["main"] 9 (by decide)).2.2 "a1"

theorem second_pass_node_updated_empty_attributes_witness :
    (({ branch := "branch2", kind := "Person", id := "p1",
        changed_at := none, action := DiffAction.UPDATED,
        attributes := [],
        relationships :=
          [{ branch := "branch2", id := "r1",
             identifier := "person__car", name := "cars",
             peer := ⟨"c3", "Car"⟩, properties := [],
             changed_at := some 4,
             action := DiffAction.ADDED }] } :
      BranchDiffNode).action = DiffAction.UPDATED) ∧
    (({ branch := "branch2", kind := "Person", id := "p1",
        changed_at := none, action := DiffAction.UPDATED,
        attributes := [],
        relationships :=
          [{ branch := "branch2", id := "r1",
             identifier := "person__car", name := "cars",
             peer := ⟨"c3", "Car"⟩, properties := [],
             changed_at := some 4,
             action := DiffAction.ADDED }] } :
      BranchDiffNode).attributes = []) ∧
    (({ branch := "branch2", kind := "Person", id := "p1",
        changed_at := none, action := DiffAction.UPDATED,
        attributes := [],
        relationships :=
          [{ branch := "branch2", id := "r1",
             identifier := "person__car", name := "cars",
             peer := ⟨"c3", "Car"⟩, properties := [],
             changed_at := some 4,
             action := DiffAction.ADDED }] } :
      BranchDiffNode).id = "p1") ∧
    (({ branch := "branch2", kind := "Person", id := "p1",
        changed_at := none, action := DiffAction.UPDATED,
        attributes := [],
        relationships :=
          [{ branch := "branch2", id := "r1",
             identifier := "person__car", name := "cars",
             peer := ⟨"c3", "Car"⟩, properties := [],
             changed_at := some 4,
             action := DiffAction.ADDED }] } :
      BranchDiffNode).relationships
      = second_pass_rels (fun _ _ _ => some "cars") "p1"
        [{ branch := "branch2", id := "r1", name := "person__car",
           nodes := [⟨"c3", "Car"⟩, ⟨"p1", "Person"⟩],
           properties := [], changed_at := some 4,
           action := DiffAction.ADDED }]) ∧
    (∃ nd, second_pass_node (fun _ _ _ => some "cars") "p1"
        [{ branch := "branch2", id := "r1", name := "person__car",
           nodes := [⟨"c3", "Car"⟩, ⟨"p1", "Person"⟩],
           properties := [], changed_at := some 4,
           action := DiffAction.ADDED }]
      = DiffResult.ok (some nd)) := by
  have h := second_pass_node_updated_empty_attributes
    (fun _ _ _ => some "cars") "p1"
    [{ branch := "branch2", id := "r1", name := "person__car",
       nodes := [⟨"c3", "Car"⟩, ⟨"p1", "Person"⟩],
       properties := [], changed_at := some 4,
       action := DiffAction.ADDED }]
  have h1 := h.1
    { branch := "branch2", kind := "Person", id := "p1",
      changed_at := none, action := DiffAction.UPDATED,
      attributes := [],
      relationships :=
        [{ branch := "branch2", id := "r1",
           identifier := "person__car", name := "cars",
           peer := ⟨"c3", "Car"⟩, properties := [],
           changed_at := some 4,
           action := DiffAction.ADDED }] }
    (by decide)
  refine ⟨h1.1, h1.2.1, h1.2.2.1, h1.2.2.2, ?_⟩
  exact (h.2 (by decide)).2
    ⟨{ branch := "branch2", id := "r1", name := "person__car",
       nodes := [⟨"c3", "Car"⟩, ⟨"p1", "Person"⟩],
       properties := [], changed_at := some 4,
       action := DiffAction.ADDED }, by decide, by decide⟩

theorem attribute_value_dedup_witness :
    dedup_invariant (attribute_update_value
      ⟨[⟨"Str", "old"⟩], [], []⟩ "a1" "main" "Str" "new" 7) :=
  (attribute_value_dedup ⟨[⟨"Str", "old"⟩], [], []⟩ "n1" "u1" "a1"
    "main" "Str" "new" true true 7 (by decide)).2.1

theorem attribute_delete_tombstones_witness :
    (⟨"HAS_VALUE", "a1", "old", "main", "active", 1, none⟩ : Edge) ∈
      (attribute_delete
        ⟨[], [], [⟨"HAS_VALUE", "a1", "old", "main", "active", 1, none⟩]⟩
        "n1" "a1" "main" "Str" "v" 7).edges :=
  (attribute_delete_tombstones
    ⟨[], [], [⟨"HAS_VALUE", "a1", "old", "main", "active", 1, none⟩]⟩
    "n1" "a1" "main" "Str" "v" 7).2.1
    ⟨"HAS_VALUE", "a1", "old", "main", "active", 1, none⟩ (by decide)

theorem branch_create_invalid_names_witness :
    branch_create ["main"] "not valid"
      = Except.error BranchCreateError.InvalidBranchName :=
  (branch_create_invalid_names ["main"] "not valid").1.2 (by decide)

theorem extract_diff_relationship_peer_witness :
    extract_diff_relationship "p1" "cars"
      ⟨"branch2", "r1", "person__car", [⟨"p1", "A"⟩, ⟨"p1", "B"⟩], [],
        none, DiffAction.ADDED⟩ = none :=
  (extract_diff_relationship_peer "p1" "cars"
    ⟨"branch2", "r1", "person__car", [⟨"p1", "A"⟩, ⟨"p1", "B"⟩], [],
      none, DiffAction.ADDED⟩).2.2 (by decide)

theorem get_migrations_spec_witness :
    (⟨"Migration001", 1⟩ : InfrahubMigration) ∈
      get_migrations [⟨"Migration001", 1⟩] ⟨1⟩ :=
  ((get_migrations_spec [⟨"Migration001", 1⟩] ⟨1⟩).1
    ⟨"Migration001", 1⟩).2 ⟨by decide, by decide⟩

end Infrahub
